import Mathlib

/-!
Verification of the parameter-sweep scripts (`scripts/param_sweep.py`,
`scripts/param_sweep_targeted.py`, `scripts/analyze_sweep.py`).

Shallow embedding conventions:
* Python dicts are association lists `List (String × PyVal)`; `dict.update`
  replaces the value of an existing key in place and appends new keys at the
  end, exactly as CPython preserves insertion order.
* Python numbers are embedded as `Int` / `ℚ` (floats become exact rationals;
  every numeric literal in the scripts is a short decimal, and none of the
  verified claims depends on binary rounding).
* Fallible code (`int(...)` / `float(...)` raising `ValueError`) is embedded
  with `Option` / `Except`.
-/

/-- A Python scalar value as used by the scripts: int, float, or str. -/
inductive PyVal where
  | int (n : Int)
  | float (q : ℚ)
  | str (s : String)
deriving DecidableEq, Repr

/-- One `d[k] = v` step of `dict.update`: replace the value of `k` in place
if present (CPython keeps the key position), otherwise append `(k, v)`. -/
def updateEntry (d : List (String × PyVal)) (k : String) (v : PyVal) :
    List (String × PyVal) :=
  if d.any (fun p => p.1 == k) then
    d.map (fun p => if p.1 == k then (k, v) else p)
  else
    d ++ [(k, v)]

/-- `d.update(upd)` for Python dicts: apply every entry of `upd` in order. -/
def dictUpdate (d upd : List (String × PyVal)) : List (String × PyVal) :=
  upd.foldl (fun acc kv => updateEntry acc kv.1 kv.2) d

/-- Python `d[k]` / `d.get(k)`: value of the first entry with key `k`. -/
def alistGet? (d : List (String × PyVal)) (k : String) : Option PyVal :=
  (d.find? (fun p => p.1 == k)).map (fun p => p.2)

/-- `itertools.product(*values)`: Cartesian product of the value lists, the
last list iterating fastest (first list slowest), as tuples in order. -/
def productLists : List (List PyVal) → List (List PyVal)
  | [] => [[]]
  | vs :: rest =>
      vs.foldr (fun v acc => (productLists rest).map (fun c => v :: c) ++ acc) []

/-- `FIXED_PARAMS` from `scripts/param_sweep.py` (identical in
`param_sweep_targeted.py`). -/
def FIXED_PARAMS : List (String × PyVal) :=
  [("cache_dir", PyVal.str "cache_2025"),
   ("contracts", PyVal.int 1),
   ("start_hour", PyVal.int 9),
   ("start_minute", PyVal.int 30),
   ("end_hour", PyVal.int 16),
   ("end_minute", PyVal.int 0),
   ("level_tolerance", PyVal.float 2),
   ("starting_balance", PyVal.int 50000),
   ("max_impulse_bars", PyVal.int 300),
   ("max_retrace_ratio", PyVal.float (7/10)),
   ("max_win_cap", PyVal.int 0),
   ("outlier_threshold", PyVal.int 0)]

/-- `generate_combinations(param_ranges)` from `scripts/param_sweep.py`:
for every tuple of `itertools.product` over the candidate lists (keys in
declaration order), build `dict(zip(keys, combo))` and then
`params.update(fixed_params)`.  The source reads the global `FIXED_PARAMS`;
it is passed here as the `fixed_params` argument. -/
def generate_combinations (param_ranges : List (String × List PyVal))
    (fixed_params : List (String × PyVal)) : List (List (String × PyVal)) :=
  let keys := param_ranges.map Prod.fst
  let values := param_ranges.map Prod.snd
  (productLists values).map
    (fun combo => dictUpdate (dictUpdate [] (keys.zip combo)) fixed_params)

/-- The single ParameterSet produced by sweeping `contracts` over `[7]`
and merging `FIXED_PARAMS`: the baseline overwrote the swept value in
place, and the remaining baseline keys were appended in order. -/
def psC2 : List (String × PyVal) :=
  [("contracts", PyVal.int 1),
   ("cache_dir", PyVal.str "cache_2025"),
   ("start_hour", PyVal.int 9),
   ("start_minute", PyVal.int 30),
   ("end_hour", PyVal.int 16),
   ("end_minute", PyVal.int 0),
   ("level_tolerance", PyVal.float 2),
   ("starting_balance", PyVal.int 50000),
   ("max_impulse_bars", PyVal.int 300),
   ("max_retrace_ratio", PyVal.float (7/10)),
   ("max_win_cap", PyVal.int 0),
   ("outlier_threshold", PyVal.int 0)]

/-- The ParameterSet produced for swept value `a = 1` with no key
collision: the swept entry followed by the whole baseline in order. -/
def psA : List (String × PyVal) :=
  [("a", PyVal.int 1),
   ("cache_dir", PyVal.str "cache_2025"),
   ("contracts", PyVal.int 1),
   ("start_hour", PyVal.int 9),
   ("start_minute", PyVal.int 30),
   ("end_hour", PyVal.int 16),
   ("end_minute", PyVal.int 0),
   ("level_tolerance", PyVal.float 2),
   ("starting_balance", PyVal.int 50000),
   ("max_impulse_bars", PyVal.int 300),
   ("max_retrace_ratio", PyVal.float (7/10)),
   ("max_win_cap", PyVal.int 0),
   ("outlier_threshold", PyVal.int 0)]

/-!  Metric extraction (`parse_output`).

The source applies `re.search` with ten fixed patterns, each of the shape

    <literal label> \s+ (\$)? ([+-]?)? <character-class>+   (one capture group)

Because the character classes never contain whitespace and the optional sign
characters are not members of the following class, Python's greedy leftmost
search is equivalent to: find the leftmost position where the label matches,
followed by one-or-more whitespace (maximal munch), the optional `$` literal,
an optional sign, and a maximal nonempty run of class characters.  The
matcher below implements exactly that. -/

/-- Python `\s` (ASCII whitespace as matched by `re` on these blobs). -/
def isPySpace (c : Char) : Bool :=
  c == ' ' || c == '\t' || c == '\n' || c == '\r' || c == '\x0b' || c == '\x0c'

/-- The character class of a capture group in the source's pattern table:
`\d`, `[\d.]`, `[-\d.]` or `[\d,.]`. -/
inductive CapKind where
  | digitsOnly
  | digitsDot
  | dashDigitsDot
  | digitsCommaDot
deriving DecidableEq, Repr

/-- Membership in a capture character class. -/
def CapKind.mem : CapKind → Char → Bool
  | .digitsOnly, c => c.isDigit
  | .digitsDot, c => c.isDigit || c == '.'
  | .dashDigitsDot, c => c == '-' || c.isDigit || c == '.'
  | .digitsCommaDot, c => c.isDigit || c == ',' || c == '.'

/-- One entry of the source's `patterns` table, e.g.
`r'Max Drawdown:\s+\$([\d,.]+)'` becomes
`{label := "Max Drawdown:", dollar := true, optSign := false, cls := .digitsCommaDot}`. -/
structure MetricPattern where
  label : String
  dollar : Bool
  optSign : Bool
  cls : CapKind
deriving DecidableEq, Repr

/-- Match a literal character sequence at the head, returning the rest. -/
def stripLit : List Char → List Char → Option (List Char)
  | [], l => some l
  | _ :: _, [] => none
  | p :: ps, c :: cs => if p == c then stripLit ps cs else none

/-- The optional `\$` literal after the whitespace run. -/
def afterWs (p : MetricPattern) (r2 : List Char) : Option (List Char) :=
  if p.dollar then
    match r2 with
    | '$' :: rest => some rest
    | _ => none
  else some r2

/-- The capture group `([+-]?)?<class>+`: an optional sign (when the pattern
has `[+-]?`) followed by a maximal nonempty run of class characters. -/
def capAt (p : MetricPattern) (r3 : List Char) : Option (List Char) :=
  match r3 with
  | [] => none
  | c :: rest =>
    if p.optSign && (c == '+' || c == '-') then
      let cap := rest.takeWhile p.cls.mem
      if cap.isEmpty then none else some (c :: cap)
    else
      let cap := (c :: rest).takeWhile p.cls.mem
      if cap.isEmpty then none else some cap

/-- Try to match pattern `p` anchored at the start of `l`; on success return
the text of the capture group. -/
def matchAt (p : MetricPattern) (l : List Char) : Option (List Char) :=
  match stripLit p.label.toList l with
  | none => none
  | some r1 =>
    if (r1.takeWhile isPySpace).isEmpty then none
    else
      match afterWs p (r1.dropWhile isPySpace) with
      | none => none
      | some r3 => capAt p r3

/-- `re.search(pattern, text).group(1)`: capture of the leftmost match. -/
def searchPat (p : MetricPattern) : List Char → Option (List Char)
  | [] => matchAt p []
  | c :: t =>
    match matchAt p (c :: t) with
    | some cap => some cap
    | none => searchPat p t

/-- `r'Total Trades:\s+(\d+)'` -/
def pat_total_trades : MetricPattern :=
  { label := "Total Trades:", dollar := false, optSign := false, cls := .digitsOnly }

/-- `r'Wins:\s+(\d+)'` -/
def pat_wins : MetricPattern :=
  { label := "Wins:", dollar := false, optSign := false, cls := .digitsOnly }

/-- `r'Losses:\s+(\d+)'` -/
def pat_losses : MetricPattern :=
  { label := "Losses:", dollar := false, optSign := false, cls := .digitsOnly }

/-- `r'Breakevens:\s+(\d+)'` -/
def pat_breakevens : MetricPattern :=
  { label := "Breakevens:", dollar := false, optSign := false, cls := .digitsOnly }

/-- `r'Profit Factor:\s+([\d.]+)'` -/
def pat_profit_factor : MetricPattern :=
  { label := "Profit Factor:", dollar := false, optSign := false, cls := .digitsDot }

/-- `r'Sharpe Ratio:\s+([-\d.]+)'` -/
def pat_sharpe : MetricPattern :=
  { label := "Sharpe Ratio:", dollar := false, optSign := false, cls := .dashDigitsDot }

/-- `r'Avg Win:\s+([\d.]+)'` -/
def pat_avg_win : MetricPattern :=
  { label := "Avg Win:", dollar := false, optSign := false, cls := .digitsDot }

/-- `r'Avg Loss:\s+([-\d.]+)'` -/
def pat_avg_loss : MetricPattern :=
  { label := "Avg Loss:", dollar := false, optSign := false, cls := .dashDigitsDot }

/-- `r'Total P&L:\s+([+-]?[\d.]+)'` -/
def pat_total_pnl : MetricPattern :=
  { label := "Total P&L:", dollar := false, optSign := true, cls := .digitsDot }

/-- `r'Max Drawdown:\s+\$([\d,.]+)'` -/
def pat_max_drawdown : MetricPattern :=
  { label := "Max Drawdown:", dollar := true, optSign := false, cls := .digitsCommaDot }

/-- The source's `patterns` dict, in declaration order
(`win_rate` has no pattern: it is computed afterwards). -/
def metricPatterns : List (String × MetricPattern) :=
  [("total_trades", pat_total_trades), ("wins", pat_wins),
   ("losses", pat_losses), ("breakevens", pat_breakevens),
   ("profit_factor", pat_profit_factor), ("sharpe_ratio", pat_sharpe),
   ("avg_win", pat_avg_win), ("avg_loss", pat_avg_loss),
   ("total_pnl", pat_total_pnl), ("max_drawdown", pat_max_drawdown)]

/-- `value.replace(',', '')`. -/
def stripCommas (l : List Char) : List Char :=
  l.filter (fun c => !(c == ','))

/-- Numeric value of a digit string (most significant first). -/
def digitsVal (l : List Char) : Nat :=
  l.foldl (fun n c => 10 * n + (c.toNat - 48)) 0

/-- Python `int(s)` on the strings reachable here (optional sign followed by
decimal digits); `none` models `ValueError`. -/
def pyIntChars? (l : List Char) : Option Int :=
  match l with
  | [] => none
  | c :: rest =>
    if c == '+' then
      if !rest.isEmpty && rest.all Char.isDigit then some (digitsVal rest) else none
    else if c == '-' then
      if !rest.isEmpty && rest.all Char.isDigit then some (-(digitsVal rest : Int)) else none
    else if (c :: rest).all Char.isDigit then some (digitsVal (c :: rest)) else none

/-- Python `float(s)` on the strings reachable here (optional sign, digits
with at most one decimal point, at least one digit); `none` models
`ValueError` (e.g. `float(".")`, `float("-")`, `float("1.2.3")`). -/
def pyFloatChars? (l : List Char) : Option ℚ :=
  let signBody : ℚ × List Char :=
    match l with
    | '+' :: rest => (1, rest)
    | '-' :: rest => (-1, rest)
    | _ => (1, l)
  let sgn := signBody.1
  let body := signBody.2
  let ip := body.takeWhile Char.isDigit
  let rest := body.dropWhile Char.isDigit
  match rest with
  | [] => if ip.isEmpty then none else some (sgn * (digitsVal ip : ℚ))
  | '.' :: fp =>
    if fp.all Char.isDigit && (!ip.isEmpty || !fp.isEmpty) then
      some (sgn * ((digitsVal ip : ℚ) + (digitsVal fp : ℚ) / (10 : ℚ) ^ fp.length))
    else none
  | _ => none

/-- The `results` dict built by `parse_output`: the eleven metric keys
`total_trades, wins, losses, breakevens, win_rate, profit_factor,
sharpe_ratio, avg_win, avg_loss, total_pnl, max_drawdown`.  The two
`*_ratio` source names are shortened to `sharpe` and (later) `rr`; the
string keys used by the analysis scripts keep the source spelling. -/
structure MetricsRecord where
  total_trades : Int
  wins : Int
  losses : Int
  breakevens : Int
  win_rate : ℚ
  profit_factor : ℚ
  sharpe : ℚ
  avg_win : ℚ
  avg_loss : ℚ
  total_pnl : ℚ
  max_drawdown : ℚ
deriving DecidableEq, Repr

/-- One loop iteration of `parse_output` for an integer-valued metric:
no match keeps the default, a match runs `int(value.replace(',', ''))`,
where a `ValueError` aborts `parse_output`. -/
def extractInt (p : MetricPattern) (l : List Char) : Except String Int :=
  match searchPat p l with
  | none => Except.ok 0
  | some cap =>
    match pyIntChars? (stripCommas cap) with
    | some n => Except.ok n
    | none => Except.error "ValueError"

/-- One loop iteration of `parse_output` for a float-valued metric. -/
def extractFloat (p : MetricPattern) (l : List Char) : Except String ℚ :=
  match searchPat p l with
  | none => Except.ok 0
  | some cap =>
    match pyFloatChars? (stripCommas cap) with
    | some q => Except.ok q
    | none => Except.error "ValueError"

/-- `parse_output(output)` from `scripts/param_sweep.py` (the copy in
`param_sweep_targeted.py` is identical): apply the ten patterns in table
order (defaults 0 / 0.0 on no match), then compute
`win_rate = wins / total_trades * 100` when `total_trades > 0`.
`Except.error` models the uncaught `ValueError` raised when a matched
capture is not a valid numeral. -/
def parse_output (output : String) : Except String MetricsRecord :=
  match extractInt pat_total_trades output.toList with
  | Except.error e => Except.error e
  | Except.ok tt =>
  match extractInt pat_wins output.toList with
  | Except.error e => Except.error e
  | Except.ok w =>
  match extractInt pat_losses output.toList with
  | Except.error e => Except.error e
  | Except.ok lo =>
  match extractInt pat_breakevens output.toList with
  | Except.error e => Except.error e
  | Except.ok be =>
  match extractFloat pat_profit_factor output.toList with
  | Except.error e => Except.error e
  | Except.ok pf =>
  match extractFloat pat_sharpe output.toList with
  | Except.error e => Except.error e
  | Except.ok sr =>
  match extractFloat pat_avg_win output.toList with
  | Except.error e => Except.error e
  | Except.ok aw =>
  match extractFloat pat_avg_loss output.toList with
  | Except.error e => Except.error e
  | Except.ok al =>
  match extractFloat pat_total_pnl output.toList with
  | Except.error e => Except.error e
  | Except.ok pnl =>
  match extractFloat pat_max_drawdown output.toList with
  | Except.error e => Except.error e
  | Except.ok md =>
    Except.ok
      { total_trades := tt, wins := w, losses := lo, breakevens := be,
        win_rate := if 0 < tt then (w : ℚ) / (tt : ℚ) * 100 else 0,
        profit_factor := pf, sharpe := sr, avg_win := aw, avg_loss := al,
        total_pnl := pnl, max_drawdown := md }

/-- The all-default record `parse_output` starts from. -/
def mrZero : MetricsRecord :=
  { total_trades := 0, wins := 0, losses := 0, breakevens := 0,
    win_rate := 0, profit_factor := 0, sharpe := 0, avg_win := 0,
    avg_loss := 0, total_pnl := 0, max_drawdown := 0 }

/-- A `results` dict after the sweep driver added the two derived metrics
`rr_ratio` (field `rr`) and `expectancy`. -/
structure DerivedRecord extends MetricsRecord where
  rr : ℚ
  expectancy : ℚ
deriving DecidableEq, Repr

/-- The derived-metric block of `main` (`param_sweep.py` lines 229-241):
`rr_ratio = abs(avg_win / avg_loss)` guarded by `avg_loss != 0`, and
`expectancy = (wins/total_trades)*avg_win - (losses/total_trades)*abs(avg_loss)`
guarded by `total_trades > 0`; both guards yield 0 instead of dividing. -/
def compute_derived (r : MetricsRecord) : DerivedRecord :=
  { toMetricsRecord := r,
    rr := if r.avg_loss ≠ 0 then |r.avg_win / r.avg_loss| else 0,
    expectancy :=
      if 0 < r.total_trades then
        ((r.wins : ℚ) / (r.total_trades : ℚ)) * r.avg_win -
          ((r.losses : ℚ) / (r.total_trades : ℚ)) * |r.avg_loss|
      else 0 }

deriving instance DecidableEq for Except

/-!  Sweep driver (`main` of `scripts/param_sweep.py`, lines 197-247).

The driver is modelled at the `run_backtest` boundary: per trial the
evaluator responds either with an error dict (`{'error': ...}`, covering
timeout and launch failure) or with a parsed `MetricsRecord`.  A written CSV
row is determined by the trial's parameter set and its derived record, so a
row is modelled as that pair.  File handling (append mode, header, flush) has
no bearing on which rows the loop writes and is not modelled. -/

/-- Outcome of `run_backtest(params)` as consumed by the driver loop. -/
inductive RunOutcome where
  | error (msg : String)
  | metrics (m : MetricsRecord)
deriving DecidableEq, Repr

/-- The rows the driver writes for a run with no resume offset: one row per
trial whose evaluator outcome is not an error, in trial order. -/
def sweep_rows {α : Type} (f : α → RunOutcome) : List α → List (α × DerivedRecord)
  | [] => []
  | p :: rest =>
    match f p with
    | RunOutcome.error _ => sweep_rows f rest
    | RunOutcome.metrics m => (p, compute_derived m) :: sweep_rows f rest

/-- The driver loop from trial index `i` on: `if i < resume: continue`
skips the trial before any invocation; otherwise the evaluator is invoked
(the index is recorded in the second component) and on success a row is
written. -/
def sweep_go {α : Type} (f : α → RunOutcome) (resume : Nat) :
    Nat → List α → List (α × DerivedRecord) × List Nat
  | _, [] => ([], [])
  | i, p :: rest =>
    if i < resume then sweep_go f resume (i + 1) rest
    else
      match f p with
      | RunOutcome.error _ =>
        ((sweep_go f resume (i + 1) rest).1,
         i :: (sweep_go f resume (i + 1) rest).2)
      | RunOutcome.metrics m =>
        ((p, compute_derived m) :: (sweep_go f resume (i + 1) rest).1,
         i :: (sweep_go f resume (i + 1) rest).2)

/-- A full driver run over `combinations` with resume offset `resume`:
the rows written, paired with the indices of the trials whose evaluator was
invoked. -/
def sweep_run {α : Type} (f : α → RunOutcome) (combos : List α) (resume : Nat) :
    List (α × DerivedRecord) × List Nat :=
  sweep_go f resume 0 combos

/-!  Result loader (`load_results` of `scripts/analyze_sweep.py`). -/

/-- The known-numeric column names from `load_results` (line 26). -/
def FLOAT_KEYS : List String :=
  ["profit_factor", "sharpe_ratio", "avg_win", "avg_loss", "total_pnl",
   "max_drawdown", "rr_ratio", "expectancy", "win_rate"]

/-- The per-field conversion of `load_results`: float if the raw text has a
dot or the key is known-numeric (empty text giving 0.0), else int (empty
text giving 0); a `ValueError` is caught and the raw text kept unchanged. -/
def convertCell (key raw : String) : PyVal :=
  if raw.toList.contains '.' || FLOAT_KEYS.contains key then
    if raw.isEmpty then PyVal.float 0
    else
      match pyFloatChars? raw.toList with
      | some q => PyVal.float q
      | none => PyVal.str raw
  else
    if raw.isEmpty then PyVal.int 0
    else
      match pyIntChars? raw.toList with
      | some n => PyVal.int n
      | none => PyVal.str raw

/-- `load_results`: convert every field of every CSV row and append the row
to the result list (rows are never dropped; conversion failures leave the
raw text in place). -/
def load_results (rows : List (List (String × String))) :
    List (List (String × PyVal)) :=
  rows.map (fun row => row.map (fun kv => (kv.1, convertCell kv.1 kv.2)))

/-!  Analysis engine (`scripts/analyze_sweep.py`).

An analysis row is a store row of the schema written by the sweep driver:
the thirteen metric columns, all numeric (`§6` of the spec; the swept
parameter columns are only echoed in console prints and do not enter any
selection or ordering decision, so they are omitted from the record). -/

/-- One typed row of the ResultSet as used by the analysis operations. -/
structure AnalysisRow where
  total_trades : ℚ
  wins : ℚ
  losses : ℚ
  breakevens : ℚ
  win_rate : ℚ
  profit_factor : ℚ
  sharpe : ℚ
  avg_win : ℚ
  avg_loss : ℚ
  total_pnl : ℚ
  max_drawdown : ℚ
  rr : ℚ
  expectancy : ℚ
deriving DecidableEq, Repr

/-- Python `x.get(name, default)` on an analysis row: the named metric if
the key exists in the row dict, otherwise `none`.  The string keys are the
source column names (`sharpe_ratio`, `rr_ratio` included). -/
def AnalysisRow.get (r : AnalysisRow) (name : String) : Option ℚ :=
  if name == "total_trades" then some r.total_trades
  else if name == "wins" then some r.wins
  else if name == "losses" then some r.losses
  else if name == "breakevens" then some r.breakevens
  else if name == "win_rate" then some r.win_rate
  else if name == "profit_factor" then some r.profit_factor
  else if name == "sharpe_ratio" then some r.sharpe
  else if name == "avg_win" then some r.avg_win
  else if name == "avg_loss" then some r.avg_loss
  else if name == "total_pnl" then some r.total_pnl
  else if name == "max_drawdown" then some r.max_drawdown
  else if name == "rr_ratio" then some r.rr
  else if name == "expectancy" then some r.expectancy
  else none

/-- The sort key of `sort_results`: `lambda x: x.get(sort_by, 0)`. -/
def sortKey (r : AnalysisRow) (name : String) : ℚ :=
  (AnalysisRow.get r name).getD 0

/-- `y` must stay strictly before `x` in the sorted output: its key is
strictly greater (descending, `rev = true`) or strictly smaller
(ascending). -/
def rowBefore (rev : Bool) (key : AnalysisRow → ℚ) (x y : AnalysisRow) : Bool :=
  if rev then decide (key x < key y) else decide (key y < key x)

/-- Stable insertion of `x` in front of the first element it ties with or
beats under the key (descending when `rev`, ascending otherwise): inserting
into the sorted suffix of elements that originally came after `x` preserves
Python's stable-sort order. -/
def insertRow (rev : Bool) (key : AnalysisRow → ℚ) (x : AnalysisRow) :
    List AnalysisRow → List AnalysisRow
  | [] => [x]
  | y :: ys =>
    if rowBefore rev key x y then
      y :: insertRow rev key x ys
    else
      x :: y :: ys

/-- Stable sort by key (Python `sorted(l, key=key, reverse=rev)`). -/
def sortByKey (rev : Bool) (key : AnalysisRow → ℚ) :
    List AnalysisRow → List AnalysisRow
  | [] => []
  | x :: xs => insertRow rev key x (sortByKey rev key xs)

/-- `sort_results(results, sort_by, reverse)`:
`sorted(results, key=lambda x: x.get(sort_by, 0), reverse=reverse)`. -/
def sort_results (results : List AnalysisRow) (sort_by : String)
    (reverse : Bool) : List AnalysisRow :=
  sortByKey reverse (fun r => sortKey r sort_by) results

/-- The strict robustness filter of `find_robust_configs`. -/
def strictRobust (min_trades : ℚ) (results : List AnalysisRow) : List AnalysisRow :=
  results.filter (fun r =>
    decide (min_trades ≤ r.total_trades) && decide ((1.5 : ℚ) < r.profit_factor)
      && decide ((1 : ℚ) < r.sharpe))

/-- The relaxed fallback filter of `find_robust_configs`. -/
def relaxedRobust (results : List AnalysisRow) : List AnalysisRow :=
  results.filter (fun r =>
    decide ((10 : ℚ) ≤ r.total_trades) && decide ((1.2 : ℚ) < r.profit_factor)
      && decide ((0 : ℚ) < r.total_pnl))

/-- `find_robust_configs(results, min_trades)`: the selection the function
iterates over and prints — the strict filter, replaced by the relaxed filter
when the strict one is empty, sorted by `sharpe_ratio` descending and capped
by `[:10]`. -/
def find_robust_configs (results : List AnalysisRow) (min_trades : ℚ) :
    List AnalysisRow :=
  let robust := strictRobust min_trades results
  let robust2 := if robust.isEmpty then relaxedRobust results else robust
  (sort_results robust2 "sharpe_ratio" true).take 10

/-- The ordering produced by `sorted(..., reverse=rev)`: non-increasing
keys when `rev`, non-decreasing otherwise. -/
def sortRel (rev : Bool) (key : AnalysisRow → ℚ) (a b : AnalysisRow) : Prop :=
  if rev then key b ≤ key a else key a ≤ key b

/-!  Concrete instances used by the scenario claims. -/

/-- The spec §8 scenario blob (claim C7). -/
def c7blob : String :=
  "Total Trades:   12\nWins:           7\nLosses:         5\nProfit Factor:  1.80\nSharpe Ratio:   1.20\nAvg Win:        25.0\nAvg Loss:       -10.0\nTotal P&L:      +115.0\nMax Drawdown:   $230.00\n"

/-- What `parse_output` actually extracts from `c7blob`. -/
def c7rec : MetricsRecord :=
  { total_trades := 12, wins := 7, losses := 5, breakevens := 0,
    win_rate := 175/3, profit_factor := 9/5, sharpe := 6/5, avg_win := 25,
    avg_loss := -10, total_pnl := 115, max_drawdown := 230 }

/-- A sample analysis row meeting only the relaxed robustness criteria. -/
def rowA : AnalysisRow :=
  { total_trades := 12, wins := 7, losses := 5, breakevens := 0,
    win_rate := 175/3, profit_factor := 13/10, sharpe := 1/2, avg_win := 25,
    avg_loss := -10, total_pnl := 5, max_drawdown := 230, rr := 5/2,
    expectancy := 125/12 }

/-- A second sample analysis row (meets the strict robustness criteria for
`min_trades = 20`). -/
def rowB : AnalysisRow :=
  { total_trades := 30, wins := 20, losses := 10, breakevens := 0,
    win_rate := 200/3, profit_factor := 2, sharpe := 3/2, avg_win := 30,
    avg_loss := -12, total_pnl := 300, max_drawdown := 100, rr := 5/2,
    expectancy := 10 }

/-!  Lemmas about the metric extractor. -/

lemma extractInt_of_search_none {p : MetricPattern} {l : List Char}
    (h : searchPat p l = none) : extractInt p l = Except.ok 0 := by
  simp [extractInt, h]

lemma extractFloat_of_search_none {p : MetricPattern} {l : List Char}
    (h : searchPat p l = none) : extractFloat p l = Except.ok 0 := by
  simp [extractFloat, h]

lemma capAt_mem_cls {p : MetricPattern} {r3 cap : List Char}
    (hsign : p.optSign = false) (h : capAt p r3 = some cap) :
    ∀ c ∈ cap, p.cls.mem c = true := by
  match r3 with
  | [] => simp [capAt] at h
  | c :: rest =>
    rw [capAt, hsign] at h
    simp only [Bool.false_and] at h
    rw [if_neg (by simp)] at h
    by_cases he : ((c :: rest).takeWhile p.cls.mem).isEmpty
    · rw [if_pos he] at h; exact absurd h (by simp)
    · rw [if_neg he] at h
      cases h
      intro d hd
      exact List.mem_takeWhile_imp hd

lemma matchAt_mem_cls {p : MetricPattern} {l cap : List Char}
    (hsign : p.optSign = false) (h : matchAt p l = some cap) :
    ∀ c ∈ cap, p.cls.mem c = true := by
  unfold matchAt at h
  cases hs : stripLit p.label.toList l with
  | none => rw [hs] at h; exact absurd h (by simp)
  | some r1 =>
    rw [hs] at h
    by_cases hws : (r1.takeWhile isPySpace).isEmpty
    · simp [hws] at h
    · simp only [hws, if_false] at h
      cases ha : afterWs p (r1.dropWhile isPySpace) with
      | none => rw [ha] at h; exact absurd h (by simp)
      | some r3 => rw [ha] at h; exact capAt_mem_cls hsign h

lemma searchPat_mem_cls {p : MetricPattern} {l cap : List Char}
    (hsign : p.optSign = false) (h : searchPat p l = some cap) :
    ∀ c ∈ cap, p.cls.mem c = true := by
  induction l with
  | nil => exact matchAt_mem_cls hsign h
  | cons c t ih =>
    unfold searchPat at h
    cases hm : matchAt p (c :: t) with
    | some cap2 => rw [hm] at h; cases h; exact matchAt_mem_cls hsign hm
    | none => rw [hm] at h; exact ih h

lemma pyIntChars?_nonneg_of_digits {l : List Char} {n : Int}
    (hd : ∀ c ∈ l, c.isDigit = true) (h : pyIntChars? l = some n) : 0 ≤ n := by
  match l with
  | [] => simp [pyIntChars?] at h
  | c :: rest =>
    have hc : c.isDigit = true := hd c (by simp)
    have hplus : (c == '+') = false := by
      cases hcp : c == '+'
      · rfl
      · rw [eq_of_beq hcp] at hc; exact absurd hc (by decide)
    have hminus : (c == '-') = false := by
      cases hcm : c == '-'
      · rfl
      · rw [eq_of_beq hcm] at hc; exact absurd hc (by decide)
    rw [pyIntChars?] at h
    rw [hplus] at h
    rw [if_neg (by simp)] at h
    rw [hminus] at h
    rw [if_neg (by simp)] at h
    by_cases hall : (c :: rest).all Char.isDigit
    · rw [if_pos hall] at h
      cases h
      exact Int.ofNat_nonneg _
    · rw [if_neg (by simpa using hall)] at h; exact absurd h (by simp)

lemma extractInt_nonneg {p : MetricPattern} {l : List Char} {n : Int}
    (hsign : p.optSign = false) (hcls : p.cls = CapKind.digitsOnly)
    (h : extractInt p l = Except.ok n) : 0 ≤ n := by
  cases hs : searchPat p l with
  | none =>
    simp only [extractInt, hs, Except.ok.injEq] at h
    omega
  | some cap =>
    have hdig : ∀ c ∈ cap, c.isDigit = true := by
      intro c hc
      have hm := searchPat_mem_cls hsign hs c hc
      rw [hcls] at hm
      simpa [CapKind.mem] using hm
    cases hp : pyIntChars? (stripCommas cap) with
    | none => simp [extractInt, hs, hp] at h
    | some m =>
      simp only [extractInt, hs, hp, Except.ok.injEq] at h
      subst h
      exact pyIntChars?_nonneg_of_digits
        (fun c hc => hdig c (List.mem_of_mem_filter hc)) hp

lemma parse_output_ok_inv {out : String} {r : MetricsRecord}
    (h : parse_output out = Except.ok r) :
    ∃ tt w lo be pf sr aw al pnl md,
      extractInt pat_total_trades out.toList = Except.ok tt ∧
      extractInt pat_wins out.toList = Except.ok w ∧
      extractInt pat_losses out.toList = Except.ok lo ∧
      extractInt pat_breakevens out.toList = Except.ok be ∧
      r = { total_trades := tt, wins := w, losses := lo, breakevens := be,
            win_rate := if 0 < tt then (w : ℚ) / (tt : ℚ) * 100 else 0,
            profit_factor := pf, sharpe := sr, avg_win := aw, avg_loss := al,
            total_pnl := pnl, max_drawdown := md } := by
  rw [parse_output] at h
  cases h1 : extractInt pat_total_trades out.toList with
  | error e => rw [h1] at h; exact absurd h (by simp)
  | ok tt =>
  rw [h1] at h
  cases h2 : extractInt pat_wins out.toList with
  | error e => rw [h2] at h; exact absurd h (by simp)
  | ok w =>
  rw [h2] at h
  cases h3 : extractInt pat_losses out.toList with
  | error e => rw [h3] at h; exact absurd h (by simp)
  | ok lo =>
  rw [h3] at h
  cases h4 : extractInt pat_breakevens out.toList with
  | error e => rw [h4] at h; exact absurd h (by simp)
  | ok be =>
  rw [h4] at h
  cases h5 : extractFloat pat_profit_factor out.toList with
  | error e => rw [h5] at h; exact absurd h (by simp)
  | ok pf =>
  rw [h5] at h
  cases h6 : extractFloat pat_sharpe out.toList with
  | error e => rw [h6] at h; exact absurd h (by simp)
  | ok sr =>
  rw [h6] at h
  cases h7 : extractFloat pat_avg_win out.toList with
  | error e => rw [h7] at h; exact absurd h (by simp)
  | ok aw =>
  rw [h7] at h
  cases h8 : extractFloat pat_avg_loss out.toList with
  | error e => rw [h8] at h; exact absurd h (by simp)
  | ok al =>
  rw [h8] at h
  cases h9 : extractFloat pat_total_pnl out.toList with
  | error e => rw [h9] at h; exact absurd h (by simp)
  | ok pnl =>
  rw [h9] at h
  cases h10 : extractFloat pat_max_drawdown out.toList with
  | error e => rw [h10] at h; exact absurd h (by simp)
  | ok md =>
  rw [h10] at h
  exact ⟨tt, w, lo, be, pf, sr, aw, al, pnl, md, rfl, rfl, rfl, rfl,
    (Except.ok.inj h).symm⟩


/-- C5: a text blob in which none of the ten labeled metric patterns match
is extracted to the all-zero `MetricsRecord` (the four counts 0, the seven
float metrics 0.0, `win_rate` included). -/
theorem claim_C5 (output : String)
    (h : ∀ p ∈ metricPatterns, searchPat p.2 output.toList = none) :
    parse_output output = Except.ok mrZero := by
  have h1 := h ("total_trades", pat_total_trades) (by simp [metricPatterns])
  have h2 := h ("wins", pat_wins) (by simp [metricPatterns])
  have h3 := h ("losses", pat_losses) (by simp [metricPatterns])
  have h4 := h ("breakevens", pat_breakevens) (by simp [metricPatterns])
  have h5 := h ("profit_factor", pat_profit_factor) (by simp [metricPatterns])
  have h6 := h ("sharpe_ratio", pat_sharpe) (by simp [metricPatterns])
  have h7 := h ("avg_win", pat_avg_win) (by simp [metricPatterns])
  have h8 := h ("avg_loss", pat_avg_loss) (by simp [metricPatterns])
  have h9 := h ("total_pnl", pat_total_pnl) (by simp [metricPatterns])
  have h10 := h ("max_drawdown", pat_max_drawdown) (by simp [metricPatterns])
  rw [parse_output, extractInt_of_search_none h1, extractInt_of_search_none h2,
    extractInt_of_search_none h3, extractInt_of_search_none h4,
    extractFloat_of_search_none h5, extractFloat_of_search_none h6,
    extractFloat_of_search_none h7, extractFloat_of_search_none h8,
    extractFloat_of_search_none h9, extractFloat_of_search_none h10]
  simp [mrZero]

/-- Witness for C5 at the concrete blob `"no metrics in here"`. -/
theorem claim_C5_witness :
    (∀ p ∈ metricPatterns, searchPat p.2 ("no metrics in here").toList = none) ∧
      parse_output "no metrics in here" = Except.ok mrZero :=
  ⟨by decide, claim_C5 "no metrics in here" (by decide)⟩

/-- C6: the derived-metric guards of the sweep driver: for any extracted
record, `avg_loss = 0` forces `rr_ratio = 0` and `total_trades = 0` forces
`expectancy = 0` and `win_rate = 0`, with no exception (the embedding of the
guarded block is a total function); in the unguarded cases the quotient
formulas apply verbatim. -/
theorem claim_C6 (output : String) (r : MetricsRecord)
    (h : parse_output output = Except.ok r) :
    (r.avg_loss = 0 → (compute_derived r).rr = 0) ∧
    (r.total_trades = 0 → (compute_derived r).expectancy = 0 ∧ r.win_rate = 0) ∧
    (r.avg_loss ≠ 0 → (compute_derived r).rr = |r.avg_win / r.avg_loss|) ∧
    (r.total_trades ≠ 0 →
      (compute_derived r).expectancy =
        ((r.wins : ℚ) / (r.total_trades : ℚ)) * r.avg_win -
          ((r.losses : ℚ) / (r.total_trades : ℚ)) * |r.avg_loss|) := by
  obtain ⟨tt, w, lo, be, pf, sr, aw, al, pnl, md, h1, h2, h3, h4, hr⟩ :=
    parse_output_ok_inv h
  have htt : 0 ≤ r.total_trades := by
    rw [hr]; exact extractInt_nonneg rfl rfl h1
  refine ⟨?_, ?_, ?_, ?_⟩
  · intro hz; simp [compute_derived, hz]
  · intro hz
    constructor
    · simp [compute_derived, hz]
    · rw [hr]
      rw [hr] at hz
      simp only [MetricsRecord.total_trades] at hz
      simp [hz]
  · intro hnz; simp [compute_derived, hnz]
  · intro hnz
    have hpos : 0 < r.total_trades := lt_of_le_of_ne htt (Ne.symm hnz)
    simp [compute_derived, hpos]

/-- Witness for C6 at the empty blob (all-zero record). -/
theorem claim_C6_witness :
    (compute_derived mrZero).rr = 0 ∧ (compute_derived mrZero).expectancy = 0 ∧
      mrZero.win_rate = 0 :=
  ⟨(claim_C6 "" mrZero (by with_unfolding_all decide)).1 rfl,
   (claim_C6 "" mrZero (by with_unfolding_all decide)).2.1 rfl⟩

/-- C10 (amended): `parse_output` is total and yields a record with exactly
the eleven metric fields (the `MetricsRecord` type) whose four counts are
non-negative whenever it returns normally — but it can raise `ValueError`
(the `Except.error` branch) when a matched capture is not a valid numeral,
so "never raising an exception for every input blob" is false; see the
counterexample. -/
theorem claim_C10 (output : String) (r : MetricsRecord)
    (h : parse_output output = Except.ok r) :
    0 ≤ r.total_trades ∧ 0 ≤ r.wins ∧ 0 ≤ r.losses ∧ 0 ≤ r.breakevens := by
  obtain ⟨tt, w, lo, be, pf, sr, aw, al, pnl, md, h1, h2, h3, h4, hr⟩ :=
    parse_output_ok_inv h
  rw [hr]
  exact ⟨extractInt_nonneg rfl rfl h1, extractInt_nonneg rfl rfl h2,
    extractInt_nonneg rfl rfl h3, extractInt_nonneg rfl rfl h4⟩

/-- Witness for C10 at the empty blob. -/
theorem claim_C10_witness :
    0 ≤ mrZero.total_trades ∧ 0 ≤ mrZero.wins ∧ 0 ≤ mrZero.losses ∧
      0 ≤ mrZero.breakevens :=
  claim_C10 "" mrZero (by with_unfolding_all decide)

/-- Counterexample to C10 as stated: on the blob `"Profit Factor: ."` the
profit-factor pattern matches with capture `"."`, and Python's
`float(".")` raises `ValueError`, so `parse_output` raises instead of
returning a record. -/
theorem claim_C10_counterexample :
    parse_output "Profit Factor: ." = Except.error "ValueError" := by
  with_unfolding_all decide

/-- C7 (amended): the §8 scenario blob extracts to `c7rec` — every field as
the claim lists it except that the exact values are `win_rate = 175/3`
(58.33…, which the claim rounds to 58.33) and
`expectancy = (7/12)*25 - (5/12)*10 = 125/12` (10.4166…, not the claimed
10.625); `rr_ratio = |25 / -10| = 5/2` as claimed. -/
theorem claim_C7 :
    parse_output c7blob = Except.ok c7rec ∧
      compute_derived c7rec =
        { toMetricsRecord := c7rec, rr := 5/2, expectancy := 125/12 } := by
  constructor
  · with_unfolding_all decide
  · with_unfolding_all decide

/-- Counterexample to C7 as stated: the pipeline record for the scenario
blob does not carry `win_rate = 58.33` (it carries `7/12*100 = 175/3`) and
does not carry `expectancy = 10.625` (it carries `125/12`). -/
theorem claim_C7_counterexample :
    parse_output c7blob = Except.ok c7rec ∧
      ¬ c7rec.win_rate = (58.33 : ℚ) ∧
      ¬ (compute_derived c7rec).expectancy = (10.625 : ℚ) := by
  refine ⟨by with_unfolding_all decide, by with_unfolding_all decide,
    by with_unfolding_all decide⟩

/-!  Lemmas about the stable sort of the analysis engine. -/

lemma sortRel_of_not_rowBefore {rev : Bool} {key : AnalysisRow → ℚ}
    {x y : AnalysisRow} (h : rowBefore rev key x y = false) :
    sortRel rev key x y := by
  cases rev with
  | false =>
    simp only [rowBefore] at h
    simp only [Bool.false_eq_true, if_false, decide_eq_false_iff_not] at h
    simpa [sortRel] using le_of_not_lt h
  | true =>
    simp only [rowBefore, if_true, decide_eq_false_iff_not] at h
    simpa [sortRel] using le_of_not_lt h

lemma sortRel_of_rowBefore {rev : Bool} {key : AnalysisRow → ℚ}
    {x y : AnalysisRow} (h : rowBefore rev key x y = true) :
    sortRel rev key y x := by
  cases rev with
  | false =>
    simp only [rowBefore] at h
    simp only [Bool.false_eq_true, if_false, decide_eq_true_eq] at h
    simpa [sortRel] using le_of_lt h
  | true =>
    simp only [rowBefore, if_true, decide_eq_true_eq] at h
    simpa [sortRel] using le_of_lt h

lemma key_ne_of_rowBefore {rev : Bool} {key : AnalysisRow → ℚ}
    {x y : AnalysisRow} (h : rowBefore rev key x y = true) :
    key x ≠ key y := by
  cases rev with
  | false =>
    simp only [rowBefore] at h
    simp only [Bool.false_eq_true, if_false, decide_eq_true_eq] at h
    exact (ne_of_lt h).symm
  | true =>
    simp only [rowBefore, if_true, decide_eq_true_eq] at h
    exact ne_of_lt h

lemma sortRel_trans_of_not_rowBefore {rev : Bool} {key : AnalysisRow → ℚ}
    {x y z : AnalysisRow} (h : rowBefore rev key x y = false)
    (h2 : sortRel rev key y z) : sortRel rev key x z := by
  cases rev with
  | false =>
    simp only [rowBefore] at h
    simp only [Bool.false_eq_true, if_false, decide_eq_false_iff_not] at h
    simp only [sortRel, Bool.false_eq_true, if_false] at h2 ⊢
    exact le_trans (le_of_not_lt h) h2
  | true =>
    simp only [rowBefore, if_true, decide_eq_false_iff_not] at h
    simp only [sortRel, if_true] at h2 ⊢
    exact le_trans h2 (le_of_not_lt h)

lemma rowBefore_false_of_eq_key {rev : Bool} {key : AnalysisRow → ℚ}
    {x y : AnalysisRow} (h : key x = key y) :
    rowBefore rev key x y = false := by
  simp [rowBefore, h]

lemma mem_insertRow {rev : Bool} {key : AnalysisRow → ℚ} {x a : AnalysisRow}
    {l : List AnalysisRow} :
    a ∈ insertRow rev key x l ↔ a = x ∨ a ∈ l := by
  induction l with
  | nil => simp [insertRow]
  | cons y ys ih =>
    rw [insertRow]
    split
    · simp only [List.mem_cons, ih]
      tauto
    · simp only [List.mem_cons]

lemma length_insertRow {rev : Bool} {key : AnalysisRow → ℚ} {x : AnalysisRow}
    {l : List AnalysisRow} :
    (insertRow rev key x l).length = l.length + 1 := by
  induction l with
  | nil => rfl
  | cons y ys ih =>
    rw [insertRow]
    split
    · simp [ih]
    · simp

lemma mem_sortByKey {rev : Bool} {key : AnalysisRow → ℚ} {a : AnalysisRow}
    {l : List AnalysisRow} :
    a ∈ sortByKey rev key l ↔ a ∈ l := by
  induction l with
  | nil => simp [sortByKey]
  | cons y ys ih =>
    rw [sortByKey, mem_insertRow]
    simp [ih]

lemma length_sortByKey {rev : Bool} {key : AnalysisRow → ℚ}
    {l : List AnalysisRow} :
    (sortByKey rev key l).length = l.length := by
  induction l with
  | nil => rfl
  | cons y ys ih => rw [sortByKey, length_insertRow, ih]; rfl

lemma pairwise_insertRow {rev : Bool} {key : AnalysisRow → ℚ} {x : AnalysisRow}
    {l : List AnalysisRow} (hl : l.Pairwise (sortRel rev key)) :
    (insertRow rev key x l).Pairwise (sortRel rev key) := by
  induction l with
  | nil => simp [insertRow]
  | cons y ys ih =>
    rcases List.pairwise_cons.mp hl with ⟨hy, hys⟩
    rw [insertRow]
    split
    · next hlt =>
      refine List.pairwise_cons.mpr ⟨?_, ih hys⟩
      intro z hz
      rcases mem_insertRow.mp hz with rfl | hz2
      · exact sortRel_of_rowBefore hlt
      · exact hy z hz2
    · next hge =>
      rw [Bool.not_eq_true] at hge
      refine List.pairwise_cons.mpr ⟨?_, hl⟩
      intro z hz
      rcases List.mem_cons.mp hz with rfl | hz2
      · exact sortRel_of_not_rowBefore hge
      · exact sortRel_trans_of_not_rowBefore hge (hy z hz2)

lemma pairwise_sortByKey {rev : Bool} {key : AnalysisRow → ℚ}
    {l : List AnalysisRow} :
    (sortByKey rev key l).Pairwise (sortRel rev key) := by
  induction l with
  | nil => simp [sortByKey]
  | cons y ys ih => exact pairwise_insertRow ih

lemma filter_insertRow {rev : Bool} {key : AnalysisRow → ℚ} {x : AnalysisRow}
    {l : List AnalysisRow} (q : ℚ) :
    (insertRow rev key x l).filter (fun r => decide (key r = q)) =
      (x :: l).filter (fun r => decide (key r = q)) := by
  induction l with
  | nil => rfl
  | cons y ys ih =>
    rw [insertRow]
    split
    · next hlt =>
      have hne : ¬(key x = q ∧ key y = q) := by
        rintro ⟨hx, hy⟩
        exact key_ne_of_rowBefore hlt (hx.trans hy.symm)
      rw [List.filter_cons, List.filter_cons, List.filter_cons, ih,
        List.filter_cons]
      by_cases hx : key x = q <;> by_cases hy : key y = q
      · exact absurd ⟨hx, hy⟩ hne
      · simp [hx, hy]
      · simp [hx, hy]
      · simp [hx, hy]
    · rfl

lemma filter_sortByKey {rev : Bool} {key : AnalysisRow → ℚ}
    {l : List AnalysisRow} (q : ℚ) :
    (sortByKey rev key l).filter (fun r => decide (key r = q)) =
      l.filter (fun r => decide (key r = q)) := by
  induction l with
  | nil => rfl
  | cons y ys ih =>
    rw [sortByKey, filter_insertRow, List.filter_cons, List.filter_cons, ih]

lemma sortByKey_of_const {rev : Bool} {key : AnalysisRow → ℚ} {c : ℚ}
    {l : List AnalysisRow} (h : ∀ r ∈ l, key r = c) :
    sortByKey rev key l = l := by
  induction l with
  | nil => rfl
  | cons y ys ih =>
    rw [sortByKey, ih (fun r hr => h r (List.mem_cons_of_mem y hr))]
    cases ys with
    | nil => rfl
    | cons z zs =>
      have hy : key y = c := h y (by simp)
      have hz : key z = c := h z (by simp)
      rw [insertRow, rowBefore_false_of_eq_key (hy.trans hz.symm)]
      rfl

lemma sortKey_sharpe (r : AnalysisRow) : sortKey r "sharpe_ratio" = r.sharpe := by
  simp [sortKey, AnalysisRow.get]

/-- C8 (amended): the Result Loader never aborts and never drops a row — a
row whose numeric field fails to parse is kept with that field left as its
raw text (the `except (ValueError, TypeError): pass` branch), rather than
being skipped as the claim states. -/
theorem claim_C8 :
    (∀ rows, (load_results rows).length = rows.length) ∧
    (∀ key raw, raw.isEmpty = false → pyFloatChars? raw.toList = none →
      pyIntChars? raw.toList = none → convertCell key raw = PyVal.str raw) := by
  constructor
  · intro rows; simp [load_results]
  · intro key raw hne hf hi
    unfold convertCell
    by_cases hc : raw.toList.contains '.' || FLOAT_KEYS.contains key
    · rw [if_pos hc, if_neg (by simp [hne]), hf]
    · rw [if_neg hc, if_neg (by simp [hne]), hi]

/-- Witness for C8: the unparsable field `"abc"` is kept as raw text. -/
theorem claim_C8_witness :
    convertCell "total_trades" "abc" = PyVal.str "abc" :=
  claim_C8.2 "total_trades" "abc" (by decide) (by decide) (by decide)

/-- Counterexample to C8 as stated: a store row whose `total_trades` field
is the unparsable text `"abc"` is loaded (the ResultSet has one record for
it), not skipped. -/
theorem claim_C8_counterexample :
    load_results [[("total_trades", "abc")]] =
        [[("total_trades", PyVal.str "abc")]] ∧
      (load_results [[("total_trades", "abc")]]).length = 1 := by
  constructor
  · with_unfolding_all decide
  · rfl

/-- C9: `sort_results` is a stable sort by the named metric — the output is
ordered by `sortRel` (non-increasing keys when descending), rows with equal
sort keys keep their relative input order (the filtered subsequence at every
key value is unchanged), and an unknown metric name gives every row the
default sort key 0, returning the rows in their original order instead of
failing. -/
theorem claim_C9 (results : List AnalysisRow) (s : String) (rev : Bool) :
    (sort_results results s rev).Pairwise
      (sortRel rev (fun r => sortKey r s)) ∧
    (∀ q : ℚ, (sort_results results s rev).filter
        (fun r => decide (sortKey r s = q)) =
      results.filter (fun r => decide (sortKey r s = q))) ∧
    ((∀ r ∈ results, AnalysisRow.get r s = none) →
      sort_results results s rev = results) := by
  refine ⟨pairwise_sortByKey, fun q => filter_sortByKey q, fun h => ?_⟩
  exact sortByKey_of_const (c := 0) (fun r hr => by simp [sortKey, h r hr])

/-- Witness for C9: sorting two rows by an unknown metric name returns them
in their original order. -/
theorem claim_C9_witness :
    sort_results [rowB, rowA] "bogus_metric" true = [rowB, rowA] :=
  (claim_C9 [rowB, rowA] "bogus_metric" true).2.2 (by decide)

lemma mem_strictRobust {mt : ℚ} {results : List AnalysisRow} {r : AnalysisRow} :
    r ∈ strictRobust mt results ↔
      r ∈ results ∧ mt ≤ r.total_trades ∧ (1.5 : ℚ) < r.profit_factor ∧
        (1 : ℚ) < r.sharpe := by
  simp [strictRobust, List.mem_filter, and_assoc]

lemma mem_relaxedRobust {results : List AnalysisRow} {r : AnalysisRow} :
    r ∈ relaxedRobust results ↔
      r ∈ results ∧ (10 : ℚ) ≤ r.total_trades ∧ (1.2 : ℚ) < r.profit_factor ∧
        (0 : ℚ) < r.total_pnl := by
  simp [relaxedRobust, List.mem_filter, and_assoc]

lemma length_sort_results (X : List AnalysisRow) (s : String) (rev : Bool) :
    (sort_results X s rev).length = X.length :=
  length_sortByKey

lemma mem_sort_results {X : List AnalysisRow} {s : String} {rev : Bool}
    {a : AnalysisRow} : a ∈ sort_results X s rev ↔ a ∈ X :=
  mem_sortByKey

lemma pairwise_sort_results (X : List AnalysisRow) (s : String) (rev : Bool) :
    (sort_results X s rev).Pairwise (sortRel rev (fun r => sortKey r s)) :=
  pairwise_sortByKey

lemma sel_facts (X : List AnalysisRow) (hX : X ≠ []) :
    (sort_results X "sharpe_ratio" true).take 10 ≠ [] ∧
    ((sort_results X "sharpe_ratio" true).take 10).length ≤ 10 ∧
    ((sort_results X "sharpe_ratio" true).take 10).Pairwise
      (fun a b => b.sharpe ≤ a.sharpe) ∧
    ∀ r ∈ (sort_results X "sharpe_ratio" true).take 10, r ∈ X := by
  refine ⟨?_, ?_, ?_, ?_⟩
  · rw [← List.length_pos, List.length_take, length_sort_results]
    exact lt_min (by norm_num) (List.length_pos.mpr hX)
  · rw [List.length_take]
    exact min_le_left _ _
  · refine ((pairwise_sort_results X "sharpe_ratio" true).sublist
      (List.take_sublist _ _)).imp ?_
    intro a b hab
    simpa [sortRel, sortKey_sharpe] using hab
  · intro r hr
    exact mem_sort_results.mp (List.take_subset _ _ hr)

/-- C4: on any ResultSet containing at least one row with
`total_trades ≥ 10`, `profit_factor > 1.2` and `total_pnl > 0`,
`find_robust_configs` returns a non-empty selection, drawn from the strict
filter (`total_trades ≥ min_trades`, `profit_factor > 1.5`,
`sharpe_ratio > 1.0`) when that is non-empty and from the relaxed fallback
otherwise, ranked by `sharpe_ratio` descending and capped at 10 rows. -/
theorem claim_C4 (results : List AnalysisRow) (min_trades : ℚ)
    (h : ∃ r ∈ results, (10 : ℚ) ≤ r.total_trades ∧
      (1.2 : ℚ) < r.profit_factor ∧ (0 : ℚ) < r.total_pnl) :
    find_robust_configs results min_trades ≠ [] ∧
    (find_robust_configs results min_trades).length ≤ 10 ∧
    (find_robust_configs results min_trades).Pairwise
      (fun a b => b.sharpe ≤ a.sharpe) ∧
    ∀ r ∈ find_robust_configs results min_trades,
      r ∈ results ∧
      (strictRobust min_trades results ≠ [] →
        min_trades ≤ r.total_trades ∧ (1.5 : ℚ) < r.profit_factor ∧
          (1 : ℚ) < r.sharpe) ∧
      (strictRobust min_trades results = [] →
        (10 : ℚ) ≤ r.total_trades ∧ (1.2 : ℚ) < r.profit_factor ∧
          (0 : ℚ) < r.total_pnl) := by
  obtain ⟨r0, hr0mem, hr0⟩ := h
  have hrelne : relaxedRobust results ≠ [] :=
    List.ne_nil_of_mem (mem_relaxedRobust.mpr ⟨hr0mem, hr0⟩)
  simp only [find_robust_configs]
  by_cases hse : (strictRobust min_trades results).isEmpty
  · rw [if_pos hse]
    have hsnil : strictRobust min_trades results = [] :=
      List.isEmpty_iff.mp hse
    obtain ⟨h1, h2, h3, h4⟩ := sel_facts (relaxedRobust results) hrelne
    refine ⟨h1, h2, h3, fun r hr => ?_⟩
    obtain ⟨hmem, hcrit⟩ := mem_relaxedRobust.mp (h4 r hr)
    exact ⟨hmem, fun hne => absurd hsnil hne, fun _ => hcrit⟩
  · rw [if_neg hse]
    have hsnil : strictRobust min_trades results ≠ [] := by
      intro he
      rw [he] at hse
      exact hse rfl
    obtain ⟨h1, h2, h3, h4⟩ := sel_facts (strictRobust min_trades results) hsnil
    refine ⟨h1, h2, h3, fun r hr => ?_⟩
    obtain ⟨hmem, hcrit⟩ := mem_strictRobust.mp (h4 r hr)
    exact ⟨hmem, fun _ => hcrit, fun he => absurd he hsnil⟩

/-- Witness for C4 at a two-row ResultSet: `rowA` meets only the relaxed
criteria, `rowB` the strict ones, so the selection is non-empty. -/
theorem claim_C4_witness :
    find_robust_configs [rowA, rowB] 20 ≠ [] :=
  (claim_C4 [rowA, rowB] 20
    ⟨rowA, List.mem_cons_self rowA [rowB], by with_unfolding_all decide⟩).1

/-!  Lemmas about the sweep driver. -/

lemma sweep_go_fst {α : Type} (f : α → RunOutcome) (resume : Nat) :
    ∀ (l : List α) (i : Nat),
      (sweep_go f resume i l).1 = sweep_rows f (l.drop (resume - i)) := by
  intro l
  induction l with
  | nil => intro i; simp [sweep_go, sweep_rows]
  | cons p rest ih =>
    intro i
    rw [sweep_go]
    by_cases hi : i < resume
    · rw [if_pos hi]
      have he : resume - i = (resume - (i + 1)) + 1 := by omega
      rw [ih (i + 1), he, List.drop_succ_cons]
    · rw [if_neg hi]
      have h0 : resume - i = 0 := by omega
      have h1 : resume - (i + 1) = 0 := by omega
      rw [h0, List.drop_zero]
      cases hf : f p with
      | error m => simp [sweep_rows, hf, ih (i + 1), h1]
      | metrics m => simp [sweep_rows, hf, ih (i + 1), h1]

lemma sweep_go_snd {α : Type} (f : α → RunOutcome) (resume : Nat) :
    ∀ (l : List α) (i : Nat),
      (sweep_go f resume i l).2 =
        (List.range' i l.length).filter (fun j => decide (resume ≤ j)) := by
  intro l
  induction l with
  | nil => intro i; simp [sweep_go]
  | cons p rest ih =>
    intro i
    rw [sweep_go, List.length_cons, List.range'_succ, List.filter_cons]
    by_cases hi : i < resume
    · rw [if_pos hi]
      have hd : decide (resume ≤ i) = false := by simp; omega
      rw [hd, ih (i + 1)]
      simp
    · rw [if_neg hi]
      have hd : decide (resume ≤ i) = true := by simp; omega
      rw [hd]
      cases hf : f p with
      | error m => simp [hf, ih (i + 1)]
      | metrics m => simp [hf, ih (i + 1)]

lemma sweep_rows_append {α : Type} (f : α → RunOutcome) (a b : List α) :
    sweep_rows f (a ++ b) = sweep_rows f a ++ sweep_rows f b := by
  induction a with
  | nil => rfl
  | cons p rest ih =>
    rw [List.cons_append]
    cases hf : f p with
    | error m => simp [sweep_rows, hf, ih]
    | metrics m => simp [sweep_rows, hf, ih]

lemma sweep_rows_length_of_success {α : Type} (f : α → RunOutcome)
    (l : List α) (h : ∀ p ∈ l, ∃ m, f p = RunOutcome.metrics m) :
    (sweep_rows f l).length = l.length := by
  induction l with
  | nil => rfl
  | cons p rest ih =>
    obtain ⟨m, hm⟩ := h p (by simp)
    rw [sweep_rows, hm]
    simp [ih (fun q hq => h q (List.mem_cons_of_mem p hq))]

/-- C3 (amended): resuming the sweep driver at offset `R` produces exactly
the rows of the full run minus the rows contributed by the first `R` trials
(which equals dropping the first `R` rows whenever each of the first `R`
trials succeeds — but not in general, see the counterexample), the
evaluator is invoked exactly on the trials of index `≥ R` (skipped trials
are never re-run), and no row of a skipped trial is rewritten. -/
theorem claim_C3 (α : Type) (f : α → RunOutcome) (combos : List α) (R : Nat) :
    (sweep_run f combos R).1 =
      ((sweep_run f combos 0).1).drop ((sweep_rows f (combos.take R)).length) ∧
    (sweep_run f combos R).2 =
      (List.range combos.length).filter (fun j => decide (R ≤ j)) ∧
    ((∀ p ∈ combos.take R, ∃ m, f p = RunOutcome.metrics m) →
      (sweep_run f combos R).1 = ((sweep_run f combos 0).1).drop R) := by
  have hfst : ∀ resume, (sweep_run f combos resume).1 =
      sweep_rows f (combos.drop resume) := by
    intro resume
    rw [sweep_run, sweep_go_fst, Nat.sub_zero]
  have hsplit : (sweep_run f combos 0).1 =
      sweep_rows f (combos.take R) ++ sweep_rows f (combos.drop R) := by
    rw [hfst 0, List.drop_zero]
    conv_lhs => rw [← List.take_append_drop R combos]
    exact sweep_rows_append f _ _
  refine ⟨?_, ?_, ?_⟩
  · rw [hfst R, hsplit, List.drop_left]
  · rw [sweep_run, sweep_go_snd, List.range_eq_range']
  · intro hsucc
    rw [hfst R, hsplit]
    have hlen : (sweep_rows f (combos.take R)).length = (combos.take R).length :=
      sweep_rows_length_of_success f _ hsucc
    by_cases hR : R ≤ combos.length
    · set A := sweep_rows f (combos.take R) with hA
      set B := sweep_rows f (combos.drop R) with hB
      have hlen2 : A.length = R := by
        rw [hA, hlen, List.length_take]
        omega
      rw [← hlen2, List.drop_left]
    · have hto : combos.take R = combos := List.take_of_length_le (by omega)
      have hdr : combos.drop R = [] := List.drop_eq_nil_of_le (by omega)
      rw [hto, hdr]
      have hbnd : (sweep_rows f combos).length ≤ R := by
        have hlc := sweep_rows_length_of_success f combos
          (by rw [← hto]; exact hsucc)
        omega
      rw [show sweep_rows f ([] : List α) = [] from rfl, List.append_nil]
      exact (List.drop_eq_nil_of_le hbnd).symm

/-- Witness for C3 with an evaluator that succeeds on every trial: resuming
at offset 2 equals the full run with its first 2 rows dropped. -/
theorem claim_C3_witness :
    (sweep_run (fun _ : Nat => RunOutcome.metrics mrZero) [0, 1, 2] 2).1 =
      ((sweep_run (fun _ : Nat => RunOutcome.metrics mrZero) [0, 1, 2] 0).1).drop 2 :=
  (claim_C3 Nat (fun _ => RunOutcome.metrics mrZero) [0, 1, 2] 2).2.2
    (fun _ _ => ⟨mrZero, rfl⟩)

/-- Counterexample to C3 as stated: with two trials where trial 0 times out
and trial 1 succeeds, resuming at `R = 1` yields the one row of trial 1,
while the full run also yields only that row — dropping the full run's
first `R = 1` rows leaves nothing, so the two ResultSets differ. -/
theorem claim_C3_counterexample :
    ¬ ((sweep_run (fun p : Nat => if p == 0 then RunOutcome.error "timeout"
          else RunOutcome.metrics mrZero) [0, 1] 1).1 =
        ((sweep_run (fun p : Nat => if p == 0 then RunOutcome.error "timeout"
          else RunOutcome.metrics mrZero) [0, 1] 0).1).drop 1) := by
  with_unfolding_all decide

/-!  Lemmas about the Python-dict embedding and the Combination Generator. -/

lemma alistGet?_cons (k0 : String) (v0 : PyVal)
    (rest : List (String × PyVal)) (k : String) :
    alistGet? ((k0, v0) :: rest) k =
      if k0 = k then some v0 else alistGet? rest k := by
  by_cases h : k0 = k
  · rw [if_pos h]
    simp [alistGet?, List.find?_cons_of_pos, h]
  · rw [if_neg h]
    simp only [alistGet?]
    rw [List.find?_cons_of_neg]
    simpa using h

lemma alistGet?_map_replace_ne (k0 k : String) (v0 : PyVal)
    (d : List (String × PyVal)) (hk : ¬ k0 = k) :
    alistGet? (d.map (fun p => if p.1 == k0 then (k0, v0) else p)) k =
      alistGet? d k := by
  induction d with
  | nil => rfl
  | cons p rest ih =>
    obtain ⟨pk, pv⟩ := p
    simp only [List.map_cons]
    by_cases hb : (pk == k0) = true
    · have hpe : pk = k0 := eq_of_beq hb
      subst hpe
      rw [if_pos (by simpa using hb), alistGet?_cons, alistGet?_cons,
        if_neg hk, if_neg hk, ih]
    · rw [if_neg (by simpa using hb), alistGet?_cons, alistGet?_cons, ih]

lemma alistGet?_map_replace_eq (k0 : String) (v0 : PyVal)
    (d : List (String × PyVal)) (hany : d.any (fun p => p.1 == k0) = true) :
    alistGet? (d.map (fun p => if p.1 == k0 then (k0, v0) else p)) k0 =
      some v0 := by
  induction d with
  | nil => simp at hany
  | cons p rest ih =>
    obtain ⟨pk, pv⟩ := p
    simp only [List.map_cons]
    by_cases hb : (pk == k0) = true
    · have hpe : pk = k0 := eq_of_beq hb
      subst hpe
      rw [if_pos (by simpa using hb), alistGet?_cons, if_pos rfl]
    · rw [if_neg (by simpa using hb), alistGet?_cons,
        if_neg (by simpa using hb)]
      apply ih
      simp only [List.any_cons, Bool.or_eq_true] at hany
      rcases hany with hh | ht
      · exact absurd hh (by simpa using hb)
      · exact ht

lemma alistGet?_append (d1 d2 : List (String × PyVal)) (k : String) :
    alistGet? (d1 ++ d2) k =
      ((alistGet? d1 k).rec (alistGet? d2 k) (fun v => some v) : Option PyVal) := by
  induction d1 with
  | nil => simp [alistGet?]
  | cons p rest ih =>
    obtain ⟨pk, pv⟩ := p
    rw [List.cons_append, alistGet?_cons, alistGet?_cons]
    by_cases hk : pk = k
    · rw [if_pos hk, if_pos hk]
    · rw [if_neg hk, if_neg hk, ih]

lemma lookup_updateEntry (d : List (String × PyVal)) (k0 k : String)
    (v0 : PyVal) :
    alistGet? (updateEntry d k0 v0) k =
      if k0 = k then some v0 else alistGet? d k := by
  unfold updateEntry
  by_cases hany : d.any (fun p => p.1 == k0)
  · rw [if_pos hany]
    by_cases hk : k0 = k
    · subst hk
      rw [if_pos rfl]
      exact alistGet?_map_replace_eq k0 v0 d hany
    · rw [if_neg hk]
      exact alistGet?_map_replace_ne k0 k v0 d hk
  · rw [if_neg hany, alistGet?_append]
    by_cases hk : k0 = k
    · subst hk
      have hnone : alistGet? d k0 = none := by
        simp only [alistGet?]
        rw [List.find?_eq_none.mpr]
        · rfl
        · intro p hp he
          exact hany (List.any_eq_true.mpr ⟨p, hp, he⟩)
      rw [hnone, if_pos rfl]
      simp [alistGet?_cons]
    · rw [if_neg hk]
      cases hd : alistGet? d k with
      | none => simp [alistGet?_cons, hk, alistGet?]
      | some v => simp

lemma lookup_dictUpdate_not_mem (upd : List (String × PyVal)) :
    ∀ (d : List (String × PyVal)) (k : String),
      (∀ kv ∈ upd, kv.1 ≠ k) →
      alistGet? (dictUpdate d upd) k = alistGet? d k := by
  induction upd with
  | nil => intro d k _; rfl
  | cons kv rest ih =>
    intro d k hne
    obtain ⟨k0, v0⟩ := kv
    rw [show dictUpdate d ((k0, v0) :: rest) =
      dictUpdate (updateEntry d k0 v0) rest from rfl]
    rw [ih _ k (fun q hq => hne q (List.mem_cons_of_mem _ hq))]
    rw [lookup_updateEntry, if_neg (hne (k0, v0) (by simp))]

lemma lookup_dictUpdate_of_nodup (upd : List (String × PyVal)) :
    ∀ (d : List (String × PyVal)) (k : String) (v : PyVal),
      (upd.map Prod.fst).Nodup → alistGet? upd k = some v →
      alistGet? (dictUpdate d upd) k = some v := by
  induction upd with
  | nil => intro d k v _ h; simp [alistGet?] at h
  | cons kv rest ih =>
    intro d k v hnd h
    obtain ⟨k0, v0⟩ := kv
    rw [List.map_cons, List.nodup_cons] at hnd
    rw [alistGet?_cons] at h
    rw [show dictUpdate d ((k0, v0) :: rest) =
      dictUpdate (updateEntry d k0 v0) rest from rfl]
    by_cases hk : k0 = k
    · rw [if_pos hk] at h
      subst hk
      rw [lookup_dictUpdate_not_mem rest _ k0 ?_, lookup_updateEntry,
        if_pos rfl]
      · exact h
      · intro q hq he
        exact hnd.1 (he ▸
          (List.mem_map_of_mem Prod.fst hq : q.1 ∈ rest.map Prod.fst))
    · rw [if_neg hk] at h
      exact ih _ k v hnd.2 h

/-- C2 (amended): when a swept key collides with a baseline key, the
**baseline** (fixed) value wins — `params.update(FIXED_PARAMS)` is executed
after `dict(zip(keys, combo))`, so the last write is the baseline's, the
opposite of what the claim states. -/
theorem claim_C2 (pr : List (String × List PyVal))
    (fixed : List (String × PyVal)) (ps : List (String × PyVal))
    (k : String) (v : PyVal) (hnd : (fixed.map Prod.fst).Nodup)
    (hps : ps ∈ generate_combinations pr fixed)
    (hv : alistGet? fixed k = some v) :
    alistGet? ps k = some v := by
  simp only [generate_combinations, List.mem_map] at hps
  obtain ⟨combo, _, hco⟩ := hps
  rw [← hco]
  exact lookup_dictUpdate_of_nodup fixed _ k v hnd hv

set_option maxRecDepth 4000 in
/-- Witness for C2: sweeping `contracts` over `[7]` and merging the real
`FIXED_PARAMS` leaves `contracts = 1` (the baseline value) in the produced
ParameterSet. -/
theorem claim_C2_witness :
    alistGet? psC2 "contracts" = some (PyVal.int 1) :=
  claim_C2 [("contracts", [PyVal.int 7])] FIXED_PARAMS psC2 "contracts"
    (PyVal.int 1) (by decide)
    (by rw [show generate_combinations [("contracts", [PyVal.int 7])]
        FIXED_PARAMS = [psC2] from rfl]
        exact List.mem_cons_self _ _)
    (by decide)

set_option maxRecDepth 4000 in
/-- Counterexample to C2 as stated: with swept `contracts = 7` colliding
with baseline `contracts = 1`, the produced ParameterSet carries the
baseline value 1, not the swept value 7. -/
theorem claim_C2_counterexample :
    generate_combinations [("contracts", [PyVal.int 7])] FIXED_PARAMS =
        [psC2] ∧
      ¬ alistGet? psC2 "contracts" = some (PyVal.int 7) :=
  ⟨rfl, by decide⟩

lemma foldr_prod_length (T : List (List PyVal)) (vs : List PyVal) :
    (vs.foldr (fun v acc => T.map (fun c => v :: c) ++ acc) []).length =
      vs.length * T.length := by
  induction vs with
  | nil => simp
  | cons v vs' ih =>
    simp only [List.foldr_cons, List.length_append, List.length_map, ih,
      List.length_cons]
    ring

lemma length_productLists : ∀ Ls : List (List PyVal),
    (productLists Ls).length = (Ls.map List.length).prod := by
  intro Ls
  induction Ls with
  | nil => rfl
  | cons vs rest ih =>
    rw [productLists, foldr_prod_length, ih, List.map_cons, List.prod_cons]

lemma mem_foldr_product (T : List (List PyVal)) (vs : List PyVal)
    (x : List PyVal) :
    x ∈ vs.foldr (fun v acc => T.map (fun c => v :: c) ++ acc) [] ↔
      ∃ v ∈ vs, ∃ t ∈ T, x = v :: t := by
  induction vs with
  | nil => simp
  | cons v vs' ih =>
    simp only [List.foldr_cons, List.mem_append, List.mem_map, ih,
      List.mem_cons]
    constructor
    · rintro (⟨t, ht, rfl⟩ | ⟨v', hv', t, ht, rfl⟩)
      · exact ⟨v, Or.inl rfl, t, ht, rfl⟩
      · exact ⟨v', Or.inr hv', t, ht, rfl⟩
    · rintro ⟨v', hv' | hv', t, ht, rfl⟩
      · exact Or.inl ⟨t, ht, by rw [hv']⟩
      · exact Or.inr ⟨v', hv', t, ht, rfl⟩

lemma length_of_mem_productLists : ∀ (Ls : List (List PyVal))
    (c : List PyVal), c ∈ productLists Ls → c.length = Ls.length := by
  intro Ls
  induction Ls with
  | nil =>
    intro c hc
    rw [show productLists [] = [[]] from rfl, List.mem_singleton] at hc
    subst hc
    rfl
  | cons vs rest ih =>
    intro c hc
    rw [productLists, mem_foldr_product] at hc
    obtain ⟨v, _, t, ht, rfl⟩ := hc
    simp [ih t ht]

lemma nodup_foldr_product (T : List (List PyVal)) (vs : List PyVal)
    (hvs : vs.Nodup) (hT : T.Nodup) :
    (vs.foldr (fun v acc => T.map (fun c => v :: c) ++ acc) []).Nodup := by
  induction vs with
  | nil => simp
  | cons v vs' ih =>
    rw [List.foldr_cons]
    rcases List.nodup_cons.mp hvs with ⟨hvn, hvs'⟩
    refine List.Nodup.append (hT.map ?_) (ih hvs') ?_
    · intro a b hab
      injection hab
    · intro x hx1 hx2
      obtain ⟨t, ht, rfl⟩ := List.mem_map.mp hx1
      rw [mem_foldr_product] at hx2
      obtain ⟨v', hv', t', ht', he⟩ := hx2
      injection he with h1 h2
      exact hvn (h1 ▸ hv')

lemma nodup_productLists : ∀ Ls : List (List PyVal),
    (∀ vs ∈ Ls, vs.Nodup) → (productLists Ls).Nodup := by
  intro Ls
  induction Ls with
  | nil => intro _; simp [productLists]
  | cons vs rest ih =>
    intro h
    rw [productLists]
    exact nodup_foldr_product _ vs (h vs (by simp))
      (ih (fun q hq => h q (List.mem_cons_of_mem _ hq)))

lemma dictUpdate_eq_append : ∀ (upd acc : List (String × PyVal)),
    ((acc ++ upd).map Prod.fst).Nodup → dictUpdate acc upd = acc ++ upd := by
  intro upd
  induction upd with
  | nil => intro acc _; simp [dictUpdate]
  | cons kv rest ih =>
    intro acc hnd
    obtain ⟨k0, v0⟩ := kv
    have hk0 : k0 ∉ acc.map Prod.fst := by
      rw [List.map_append] at hnd
      intro hmem
      exact (List.nodup_append.mp hnd).2.2 hmem (by simp)
    have hany : acc.any (fun p => p.1 == k0) = false := by
      rw [List.any_eq_false]
      intro p hp he
      exact hk0 ((eq_of_beq he) ▸
        (List.mem_map_of_mem Prod.fst hp : p.1 ∈ acc.map Prod.fst))
    rw [show dictUpdate acc ((k0, v0) :: rest) =
      dictUpdate (updateEntry acc k0 v0) rest from rfl]
    rw [show updateEntry acc k0 v0 = acc ++ [(k0, v0)] by
      unfold updateEntry; rw [hany]; simp]
    rw [ih (acc ++ [(k0, v0)]) (by rw [List.append_assoc]; exact hnd),
      List.append_assoc]
    rfl

lemma merge_eq_append (keys : List String) (combo : List PyVal)
    (fixed : List (String × PyVal)) (hlen : combo.length = keys.length)
    (hk : keys.Nodup) (hf : (fixed.map Prod.fst).Nodup)
    (hdisj : ∀ k ∈ keys, k ∉ fixed.map Prod.fst) :
    dictUpdate (dictUpdate [] (keys.zip combo)) fixed =
      keys.zip combo ++ fixed := by
  have hzf : (keys.zip combo).map Prod.fst = keys :=
    List.map_fst_zip keys combo (by omega)
  have h1 : dictUpdate [] (keys.zip combo) = keys.zip combo := by
    rw [dictUpdate_eq_append (keys.zip combo) []]
    · rfl
    · rw [List.nil_append, hzf]; exact hk
  rw [h1, dictUpdate_eq_append fixed (keys.zip combo)]
  rw [List.map_append, hzf]
  rw [List.nodup_append]
  exact ⟨hk, hf, fun k hkk => hdisj k hkk⟩

/-- C1 (amended): `generate_combinations` emits exactly the Cartesian
product of the candidate sequences in last-parameter-fastest order (the §8
scenario is checked verbatim in the second conjunct) with output count the
product of the sequence lengths; the produced ParameterSets are pairwise
distinct **provided** each candidate sequence is duplicate-free and the
swept keys are distinct and disjoint from the baseline keys — without those
provisos distinctness fails (see the counterexample). -/
theorem claim_C1 :
    (∀ (pr : List (String × List PyVal)) (fixed : List (String × PyVal)),
      (generate_combinations pr fixed).length =
        (pr.map (fun kv => kv.2.length)).prod ∧
      ((∀ vs ∈ pr.map Prod.snd, vs.Nodup) → (pr.map Prod.fst).Nodup →
        (fixed.map Prod.fst).Nodup →
        (∀ k ∈ pr.map Prod.fst, k ∉ fixed.map Prod.fst) →
        (generate_combinations pr fixed).Nodup)) ∧
    (generate_combinations [("a", [PyVal.int 1, PyVal.int 2]),
        ("b", [PyVal.int 10, PyVal.int 20, PyVal.int 30])] FIXED_PARAMS).map
      (fun ps => (alistGet? ps "a", alistGet? ps "b")) =
      [(some (PyVal.int 1), some (PyVal.int 10)),
       (some (PyVal.int 1), some (PyVal.int 20)),
       (some (PyVal.int 1), some (PyVal.int 30)),
       (some (PyVal.int 2), some (PyVal.int 10)),
       (some (PyVal.int 2), some (PyVal.int 20)),
       (some (PyVal.int 2), some (PyVal.int 30))] := by
  constructor
  · intro pr fixed
    constructor
    · simp only [generate_combinations, List.length_map]
      rw [length_productLists, List.map_map]
      rfl
    · intro hv hk hf hdisj
      simp only [generate_combinations]
      refine List.Nodup.map_on ?_ (nodup_productLists _ hv)
      intro c1 h1 c2 h2 he
      have hl1 : c1.length = (pr.map Prod.fst).length := by
        rw [length_of_mem_productLists _ c1 h1]
        simp
      have hl2 : c2.length = (pr.map Prod.fst).length := by
        rw [length_of_mem_productLists _ c2 h2]
        simp
      rw [merge_eq_append _ _ _ hl1 hk hf hdisj,
        merge_eq_append _ _ _ hl2 hk hf hdisj] at he
      have hzl : ((pr.map Prod.fst).zip c1).length =
          ((pr.map Prod.fst).zip c2).length := by
        rw [List.length_zip, List.length_zip]
        omega
      have hz := (List.append_inj he hzl).1
      have hs1 : ((pr.map Prod.fst).zip c1).map Prod.snd = c1 :=
        List.map_snd_zip _ _ (by omega)
      have hs2 : ((pr.map Prod.fst).zip c2).map Prod.snd = c2 :=
        List.map_snd_zip _ _ (by omega)
      rw [← hs1, ← hs2, hz]
  · rfl

set_option maxRecDepth 4000 in
/-- Witness for C1: the §8 scenario ranges with the real baseline satisfy
the distinctness provisos, so the six ParameterSets are pairwise
distinct. -/
theorem claim_C1_witness :
    (generate_combinations [("a", [PyVal.int 1, PyVal.int 2]),
      ("b", [PyVal.int 10, PyVal.int 20, PyVal.int 30])] FIXED_PARAMS).Nodup :=
  (claim_C1.1 [("a", [PyVal.int 1, PyVal.int 2]),
      ("b", [PyVal.int 10, PyVal.int 20, PyVal.int 30])] FIXED_PARAMS).2
    (by decide) (by decide) (by decide) (by decide)

set_option maxRecDepth 4000 in
/-- Counterexample to C1 as stated: the candidate sequence `a: [1, 1]`
yields two combinations (count 2 = the product of lengths, as claimed) but
the two produced ParameterSets are identical, so "every produced
ParameterSet distinct" fails for this parameter-range mapping. -/
theorem claim_C1_counterexample :
    generate_combinations [("a", [PyVal.int 1, PyVal.int 1])] FIXED_PARAMS =
        [psA, psA] ∧
      ¬ (generate_combinations [("a", [PyVal.int 1, PyVal.int 1])]
          FIXED_PARAMS).Nodup := by
  refine ⟨rfl, ?_⟩
  rw [show generate_combinations [("a", [PyVal.int 1, PyVal.int 1])]
    FIXED_PARAMS = [psA, psA] from rfl]
  intro h
  exact (List.nodup_cons.mp h).1 (List.mem_cons_self _ _)
